import Mathlib

/-! Verification of the intent-recognition core of jsgf2fst (fstaccept.py).

The automaton model, the path enumerator (fstprintall), the symbol
decoder (symbols2intent) and the recognizer (fstaccept) are embedded as
executable Lean functions.  Confidence arithmetic is modelled over the
rationals.  Failures that the Python code signals by raising (the
assert in symbols2intent, a failing output-symbol lookup in
fstprintall) are modelled with the Except monad; the bare except in
fstaccept corresponds to matching on those Except values.  The
composition step (apply_fst / linear_fst) delegates to the external
pywrapfst library, so it is represented by a caller-supplied function
producing either the composed automaton or a failure.  The Python
recursion in fstprintall has no termination guarantee on cyclic
automata, so the embedding carries a fuel parameter; running out of
fuel is reported as a failure, hence an Except.ok run of the Lean
function corresponds exactly to a terminating run of the Python one. -/

/-- An FST arc as used by fstaccept.py: fstprintall reads only
`olabel` and `nextstate`; `ilabel` is kept for completeness (the
weight is never read by this code). -/
structure Arc where
  ilabel : Nat
  olabel : Nat
  nextstate : Nat
  deriving DecidableEq, Repr

/-- The automaton interface that fstaccept.py consumes: a start state,
the arc list of each state, whether the final weight of a state differs
from the zero weight (`in_fst.final(s) != zero_weight`), and the
output symbol table.  `outSyms l = none` models a lookup that fails,
which pywrapfst reports by raising. -/
structure FST where
  start : Nat
  arcsOf : Nat → List Arc
  finalNZ : Nat → Bool
  outSyms : Nat → Option String

/-- Python `state = state or in_fst.start()` at the top of
fstprintall: the state id 0 is falsy in Python, so a recursive call
whose target state is 0 continues from the start state instead. -/
def FST.effState (A : FST) (s : Nat) : Nat :=
  if s = 0 then A.start else s

/-- Python str.startswith, modelled on the character list of the
string (Python strings are sequences of code points).  The char-list
form is used because it evaluates by kernel reduction. -/
def pyStartsWith (s pre : String) : Bool :=
  pre.data.isPrefixOf s.data

/-- Python slicing `s[n:]` by characters. -/
def pyDrop (s : String) (n : Nat) : String :=
  { data := s.data.drop n }

/-- Python `c in s` for a single-character pattern. -/
def pyContainsChar (s : String) (c : Char) : Bool :=
  s.data.contains c

/-- The characters of `s` before the first one failing `p`. -/
def pyTakeWhile (s : String) (p : Char → Bool) : String :=
  { data := s.data.takeWhile p }

/-- The characters of `s` from the first one failing `p` on. -/
def pyDropWhile (s : String) (p : Char → Bool) : String :=
  { data := s.data.dropWhile p }

/-- Decidable equality of Except values, used to evaluate the
embedded functions on concrete automata. -/
instance exceptDecEq {e a : Type} [DecidableEq e] [DecidableEq a] :
    DecidableEq (Except e a) := fun x y =>
  match x, y with
  | Except.error e1, Except.error e2 =>
    match decEq e1 e2 with
    | isTrue h => isTrue (h ▸ rfl)
    | isFalse h => isFalse fun hc => h (Except.error.inj hc)
  | Except.ok a1, Except.ok a2 =>
    match decEq a1 a2 with
    | isTrue h => isTrue (h ▸ rfl)
    | isFalse h => isFalse fun hc => h (Except.ok.inj hc)
  | Except.error _, Except.ok _ => isFalse fun hc => Except.noConfusion hc
  | Except.ok _, Except.error _ => isFalse fun hc => Except.noConfusion hc

/-- The sentence-building loop of fstprintall (fstaccept.py lines
148-159): walk the accumulated path, skip arcs whose output label is
`eps`, resolve every remaining label in the output symbol table (a
failed lookup raises) and, when `excludeMeta` is set, skip resolved
symbols that start with two underscores. -/
def pathToSentence (A : FST) (excludeMeta : Bool) (eps : Nat) :
    List Arc → Except String (List String)
  | [] => Except.ok []
  | a :: rest =>
    if a.olabel = eps then pathToSentence A excludeMeta eps rest
    else
      match A.outSyms a.olabel with
      | none => Except.error "output symbol lookup failed"
      | some osym =>
        if excludeMeta && pyStartsWith osym "__" then
          pathToSentence A excludeMeta eps rest
        else
          match pathToSentence A excludeMeta eps rest with
          | Except.error e => Except.error e
          | Except.ok sentence => Except.ok (osym :: sentence)

/-- The arc loop of fstprintall (fstaccept.py lines 143-181), with the
mutable path buffer threaded explicitly: the returned list of arcs is
the value of the buffer when the loop returns.  For each arc the
buffer grows by that arc; if the target of the arc has non-zero final
weight the current buffer is emitted as a sentence, otherwise the
function recurses from the target state (through the Python
`state or in_fst.start()` redirection, `FST.effState`); afterwards
`path.pop()` shrinks the buffer again.  The fuel argument totalizes
the recursion; exhausted fuel is an error, so an Except.ok result
means the traversal ran to completion. -/
def goArcs (A : FST) (excl : Bool) (eps : Nat) :
    Nat → List Arc → List Arc → Except String (List Arc × List (List String))
  | _, [], path => Except.ok (path, [])
  | 0, _ :: _, _ => Except.error "fuel exhausted"
  | fuel + 1, a :: rest, path =>
    if A.finalNZ a.nextstate then
      match pathToSentence A excl eps (path ++ [a]) with
      | Except.error e => Except.error e
      | Except.ok sentence =>
        match goArcs A excl eps fuel rest ((path ++ [a]).dropLast) with
        | Except.error e => Except.error e
        | Except.ok (pathEnd, rst) => Except.ok (pathEnd, sentence :: rst)
    else
      match goArcs A excl eps fuel (A.arcsOf (A.effState a.nextstate)) (path ++ [a]) with
      | Except.error e => Except.error e
      | Except.ok (path2, subs) =>
        match goArcs A excl eps fuel rest (path2.dropLast) with
        | Except.error e => Except.error e
        | Except.ok (pathEnd, rst) => Except.ok (pathEnd, subs ++ rst)

/-- fstprintall as called by fstaccept: state = None (hence the start
state), path = None (hence an empty buffer), eps = 0, with the
sentences projected out. -/
def fstprintall (fuel : Nat) (A : FST) (excludeMeta : Bool) :
    Except String (List (List String)) :=
  match goArcs A excludeMeta 0 fuel (A.arcsOf A.start) [] with
  | Except.error e => Except.error e
  | Except.ok (_, sentences) => Except.ok sentences

/-- One entity entry of the returned intent record. -/
structure Entity where
  entity : String
  value : String
  deriving DecidableEq, Repr

/-- The inner intent dict: name and confidence. -/
structure IntentInfo where
  name : String
  confidence : ℚ
  deriving DecidableEq, Repr

/-- The intent record built by symbols2intent.  The Python dict from
empty_intent has no tokens key until symbols2intent sets it; the Lean
structure carries the field from the outset with default value []. -/
structure Intent where
  text : String
  intent : IntentInfo
  entities : List Entity
  tokens : List String
  deriving DecidableEq, Repr

/-- empty_intent of fstaccept.py (with tokens added as the empty
list, see `Intent`). -/
def empty_intent : Intent :=
  { text := "", intent := { name := "", confidence := 0 }, entities := [], tokens := [] }

/-- The mutable locals of symbols2intent: tag, tag_symbols,
out_symbols, intent_name, plus the growing entities list of the
intent dict. -/
structure DecState where
  tag : Option String
  tagSymbols : List String
  outSymbols : List String
  intentName : Option String
  entities : List Entity
  deriving DecidableEq, Repr

/-- Python truthiness of the tag variable in `elif tag:`: None and
the empty string are falsy. -/
def tagTruthy : Option String → Bool
  | none => false
  | some t => t != ""

/-- The decoder state at entry of symbols2intent. -/
def initDecState (intentName : Option String) : DecState :=
  { tag := none, tagSymbols := [], outSymbols := [], intentName := intentName, entities := [] }

/-- One iteration of the symbol loop of symbols2intent (fstaccept.py
lines 82-114).  The branches are tested in source order: the literal
string eps symbol, then the begin / end / label prefixes, then the
truthiness of the open tag.  The failing assert on a mismatched end
tag is the Except.error case. -/
def s2iStep (replaceTags : Bool) (st : DecState) (sym : String) :
    Except String DecState :=
  if sym = "<eps>" then Except.ok st
  else if pyStartsWith sym "__begin__" then
    Except.ok { st with tag := some (pyDrop sym 9), tagSymbols := [] }
  else if pyStartsWith sym "__end__" then
    if st.tag = some (pyDrop sym 7) then
      let t := pyDrop sym 7
      let pair : String × String :=
        if replaceTags && pyContainsChar t ':' then
          (pyTakeWhile t (fun c => c ≠ ':'), pyDrop (pyDropWhile t (fun c => c ≠ ':')) 1)
        else
          (t, String.intercalate " " st.tagSymbols)
      Except.ok { st with
        entities := st.entities ++ [{ entity := pair.1, value := pair.2 }],
        tag := none }
    else Except.error "Mismatched tags"
  else if pyStartsWith sym "__label__" then
    Except.ok { st with
      intentName := match st.intentName with
        | none => some (pyDrop sym 9)
        | some n => some n }
  else if tagTruthy st.tag then
    Except.ok { st with
      tagSymbols := st.tagSymbols ++ [sym],
      outSymbols := st.outSymbols ++ [sym] }
  else
    Except.ok { st with outSymbols := st.outSymbols ++ [sym] }

/-- The symbol loop of symbols2intent run over a whole list. -/
def s2iRun (replaceTags : Bool) : DecState → List String → Except String DecState
  | st, [] => Except.ok st
  | st, sym :: rest =>
    match s2iStep replaceTags st sym with
    | Except.error e => Except.error e
    | Except.ok st1 => s2iRun replaceTags st1 rest

/-- The epilogue of symbols2intent (fstaccept.py lines 116-123):
text and tokens come from out_symbols; with at least one output
symbol the intent name becomes `intent_name or ""` and the confidence
becomes 1, otherwise both keep the empty_intent values. -/
def s2iFinalize (st : DecState) : Intent :=
  { text := String.intercalate " " st.outSymbols,
    intent :=
      if st.outSymbols.length > 0 then
        { name := st.intentName.getD "", confidence := 1 }
      else
        { name := "", confidence := 0 },
    entities := st.entities,
    tokens := st.outSymbols }

/-- symbols2intent started from an arbitrary decoder state. -/
def s2iFrom (replaceTags : Bool) (st : DecState) (symbols : List String) :
    Except String Intent :=
  match s2iRun replaceTags st symbols with
  | Except.error e => Except.error e
  | Except.ok st1 => Except.ok (s2iFinalize st1)

/-- symbols2intent of fstaccept.py.  The Python eps parameter is dead
code (the loop compares against the literal string) and the intent
parameter is never supplied by any caller; both are omitted. -/
def symbols2intent (symbols : List String) (intentName : Option String)
    (replaceTags : Bool) : Except String Intent :=
  s2iFrom replaceTags (initDecState intentName) symbols

/-- `intent["intent"]["confidence"] /= len(out_sentences)` (fstaccept.py
line 62). -/
def scaleIntent (n : Nat) (i : Intent) : Intent :=
  { i with intent := { i.intent with confidence := i.intent.confidence / (n : ℚ) } }

/-- The decoding loop of fstaccept (lines 57-63) together with the
surrounding try/except: each enumerated sentence is decoded, its
confidence divided by the number of enumerated sentences, and the
record appended; the first decode failure aborts the loop, so exactly
the records appended before it are returned. -/
def decodeLoop (n : Nat) (intentName : Option String) (replaceTags : Bool) :
    List (List String) → List Intent
  | [] => []
  | s :: rest =>
    match symbols2intent s intentName replaceTags with
    | Except.error _ => []
    | Except.ok i => scaleIntent n i :: decodeLoop n intentName replaceTags rest

/-- `sentence.strip().lower()` followed by `re.split(r"\s+", ...)`
(fstaccept.py lines 48-49).  re.split on the empty string yields a
single empty token; on a stripped non-empty string it yields the
maximal runs of non-whitespace characters. -/
def pyTokenize (sentence : String) : List String :=
  let s := sentence.trim.toLower
  if s = "" then [""] else (s.split Char.isWhitespace).filter (fun w => w ≠ "")

/-- fstaccept of fstaccept.py.  Modelled from the spec: the
composition step `apply_fst(words, in_fst)` (linear_fst plus
pywrapfst compose and project, external library calls) is represented
by the function `applyFst`, standing for `fun words =>
apply_fst(words, in_fst)` for the given grammar; it returns the
composed automaton or a failure.  The bare `except:` of the Python
code is the two error matches plus the abort inside `decodeLoop`. -/
def fstaccept (applyFst : List String → Except String FST) (fuel : Nat)
    (sentence : String) (intentName : Option String) (replaceTags : Bool) :
    List Intent :=
  match applyFst (pyTokenize sentence) with
  | Except.error _ => []
  | Except.ok outFst =>
    match fstprintall fuel outFst false with
    | Except.error _ => []
    | Except.ok outSentences =>
      decodeLoop outSentences.length intentName replaceTags outSentences

/-- Specification-side predicate describing exactly the paths that the
arc loop of fstprintall emits, starting from a given list of pending
arcs: the path takes one pending arc; if the target of that arc has
non-zero final weight the path ends there, otherwise it continues
with the arcs of the (Python-redirected) target state. -/
inductive EmitFrom (A : FST) : List Arc → List Arc → Prop
  | emit (a : Arc) (arcs : List Arc) (ha : a ∈ arcs)
      (hfin : A.finalNZ a.nextstate = true) : EmitFrom A arcs [a]
  | step (a : Arc) (arcs : List Arc) (p : List Arc) (ha : a ∈ arcs)
      (hfin : A.finalNZ a.nextstate = false)
      (hp : EmitFrom A (A.arcsOf (A.effState a.nextstate)) p) :
      EmitFrom A arcs (a :: p)

/-- Claim-side notion of an accepting path, taken from the words of
the spec: any sequence of consecutive arcs from a state to a state of
non-zero final weight, including the empty path at an accepting state
and paths that continue beyond intermediate accepting states. -/
inductive AccPath (A : FST) : Nat → List Arc → Prop
  | nil (s : Nat) (h : A.finalNZ s = true) : AccPath A s []
  | cons (s : Nat) (a : Arc) (p : List Arc) (ha : a ∈ A.arcsOf s)
      (hp : AccPath A a.nextstate p) : AccPath A s (a :: p)

/-- Relation between the entity entries produced from the same tag
close with replace_tags enabled (left) and disabled (right): with a
colon in the tag name the enabled run keeps only the part before the
colon, otherwise the two entries coincide. -/
def entityRel (e1 e2 : Entity) : Prop :=
  (pyContainsChar e2.entity ':' = true → e1.entity = pyTakeWhile e2.entity (fun c => c ≠ ':')) ∧
  (pyContainsChar e2.entity ':' = false → e1 = e2)

/-- A symbol that the decoder appends to out_symbols: not the literal
eps string and none of the three marker prefixes. -/
def isLiteralSym (x : String) : Bool :=
  !(x == "<eps>") && !pyStartsWith x "__begin__" && !pyStartsWith x "__end__" &&
    !pyStartsWith x "__label__"

/-- Whether decoding a sentence succeeds with a non-empty token
list. -/
def decodesNonempty (intentName : Option String) (replaceTags : Bool)
    (x : List String) : Bool :=
  match symbols2intent x intentName replaceTags with
  | Except.ok i => !i.tokens.isEmpty
  | Except.error _ => false

/-- Sum of the confidences of a list of intent records. -/
def sumConf (l : List Intent) : ℚ :=
  (l.map fun r => r.intent.confidence).sum

/-- Two-path automaton whose second path decodes with a mismatched
end tag: state 0 is the start, arcs lead to the accepting states 1
and 2, the output symbols are "hello" and "__end__x". -/
def fstC1 : FST :=
  { start := 0,
    arcsOf := fun s => if s = 0 then [⟨1, 1, 1⟩, ⟨2, 2, 2⟩] else [],
    finalNZ := fun s => (s == 1) || (s == 2),
    outSyms := fun l =>
      if l = 1 then some "hello" else if l = 2 then some "__end__x" else none }

/-- Chain automaton 0 → 1 → 2 in which every state, the start
included, has non-zero final weight. -/
def fstC2 : FST :=
  { start := 0,
    arcsOf := fun s =>
      if s = 0 then [⟨1, 1, 1⟩] else if s = 1 then [⟨2, 2, 2⟩] else [],
    finalNZ := fun _ => true,
    outSyms := fun l =>
      if l = 1 then some "a" else if l = 2 then some "b" else none }

/-- Two-path automaton: one path outputs the literal "hello", the
other only the marker "__label__x", which decodes to an empty token
list. -/
def fstC3 : FST :=
  { start := 0,
    arcsOf := fun s => if s = 0 then [⟨1, 1, 1⟩, ⟨2, 2, 2⟩] else [],
    finalNZ := fun s => (s == 1) || (s == 2),
    outSyms := fun l =>
      if l = 1 then some "hello" else if l = 2 then some "__label__x" else none }

/-- Two-path automaton with the literal outputs "a" and "b"; both
paths decode successfully with non-empty tokens. -/
def fstOK : FST :=
  { start := 0,
    arcsOf := fun s => if s = 0 then [⟨1, 1, 1⟩, ⟨2, 2, 2⟩] else [],
    finalNZ := fun s => (s == 1) || (s == 2),
    outSyms := fun l =>
      if l = 1 then some "a" else if l = 2 then some "b" else none }

/-- One-arc automaton whose only output symbol is "__x": it starts
with two underscores but is none of the three reserved markers. -/
def fstC6 : FST :=
  { start := 0,
    arcsOf := fun s => if s = 0 then [⟨1, 1, 1⟩] else [],
    finalNZ := fun s => s == 1,
    outSyms := fun l => if l = 1 then some "__x" else none }

/-- The record symbols2intent produces for the single literal
"hello" (before confidence scaling). -/
def iHello : Intent :=
  { text := "hello", intent := { name := "", confidence := 1 },
    entities := [], tokens := ["hello"] }

/-- The record symbols2intent produces for the single marker
"__label__x": empty output, confidence 0. -/
def iLabelOnly : Intent :=
  { text := "", intent := { name := "", confidence := 0 },
    entities := [], tokens := [] }

/-- The record decoded from the tagged path around "x" with
replace_tags disabled: the entity keeps the full tag name, colon
included. -/
def iCityFull : Intent :=
  { text := "x", intent := { name := "", confidence := 1 },
    entities := [{ entity := "city:boston", value := "x" }], tokens := ["x"] }

/-- The record decoded from the same tagged path with replace_tags
enabled: entity name "city", value "boston". -/
def iCityRepl : Intent :=
  { text := "x", intent := { name := "", confidence := 1 },
    entities := [{ entity := "city", value := "boston" }], tokens := ["x"] }

/-- The record symbols2intent produces for the single literal "a". -/
def iA : Intent :=
  { text := "a", intent := { name := "", confidence := 1 },
    entities := [], tokens := ["a"] }

/-- Classification of an output symbol as one of the three reserved
markers (which in particular start with two underscores) or as a plain
literal token (which starts with no double underscore and is not the
literal eps string).  Output symbols outside these classes are exactly
the ones that break the literal-mode round trip. -/
def markerOrPlain (s : String) : Prop :=
  (pyStartsWith s "__begin__" = true ∧ pyStartsWith s "__" = true) ∨
  (pyStartsWith s "__begin__" = false ∧ pyStartsWith s "__end__" = true ∧
    pyStartsWith s "__" = true) ∨
  (pyStartsWith s "__begin__" = false ∧ pyStartsWith s "__end__" = false ∧
    pyStartsWith s "__label__" = true ∧ pyStartsWith s "__" = true) ∨
  (pyStartsWith s "__begin__" = false ∧ pyStartsWith s "__end__" = false ∧
    pyStartsWith s "__label__" = false ∧ pyStartsWith s "__" = false ∧ s ≠ "<eps>")

/-- markerOrPlain is a decidable classification. -/
instance markerOrPlainDec (s : String) : Decidable (markerOrPlain s) := by
  unfold markerOrPlain
  infer_instance


lemma dropLast_append_one {α : Type} (l : List α) (a : α) :
    (l ++ [a]).dropLast = l := by
  simp

lemma emitFrom_nil {A : FST} {p : List Arc} : ¬ EmitFrom A [] p := by
  intro h
  cases h with
  | emit a arcs ha hfin => exact absurd ha (List.not_mem_nil a)
  | step a arcs q ha hfin hq => exact absurd ha (List.not_mem_nil a)

lemma emitFrom_tail {A : FST} {a : Arc} {rest p : List Arc}
    (h : EmitFrom A rest p) : EmitFrom A (a :: rest) p := by
  cases h with
  | emit b arcs hb hfin => exact .emit b _ (List.mem_cons_of_mem a hb) hfin
  | step b arcs q hb hfin hq => exact .step b _ q (List.mem_cons_of_mem a hb) hfin hq

lemma emitFrom_cons_iff (A : FST) (a : Arc) (rest p : List Arc) :
    EmitFrom A (a :: rest) p ↔
      (A.finalNZ a.nextstate = true ∧ p = [a]) ∨
      (A.finalNZ a.nextstate = false ∧
        ∃ q, p = a :: q ∧ EmitFrom A (A.arcsOf (A.effState a.nextstate)) q) ∨
      EmitFrom A rest p := by
  constructor
  · intro h
    cases h with
    | emit b arcs hb hfin =>
      rcases List.mem_cons.mp hb with hb1 | hb2
      · subst hb1
        exact Or.inl ⟨hfin, rfl⟩
      · exact Or.inr (Or.inr (.emit b _ hb2 hfin))
    | step b arcs q hb hfin hq =>
      rcases List.mem_cons.mp hb with hb1 | hb2
      · subst hb1
        exact Or.inr (Or.inl ⟨hfin, q, rfl, hq⟩)
      · exact Or.inr (Or.inr (.step b _ q hb2 hfin hq))
  · rintro (⟨hfin, rfl⟩ | ⟨hfin, q, rfl, hq⟩ | h)
    · exact .emit a _ (List.mem_cons_self a rest) hfin
    · exact .step a _ q (List.mem_cons_self a rest) hfin hq
    · exact emitFrom_tail h

theorem goArcs_ok (A : FST) (excl : Bool) (eps : Nat) :
    ∀ (fuel : Nat) (arcs path pathE : List Arc) (sents : List (List String)),
      goArcs A excl eps fuel arcs path = Except.ok (pathE, sents) →
      pathE = path ∧
        ∀ s, s ∈ sents ↔
          ∃ p, EmitFrom A arcs p ∧
            pathToSentence A excl eps (path ++ p) = Except.ok s := by
  intro fuel
  induction fuel with
  | zero =>
    intro arcs path pathE sents h
    cases arcs with
    | nil =>
      simp only [goArcs, Except.ok.injEq, Prod.mk.injEq] at h
      obtain ⟨h1, h2⟩ := h
      subst h1; subst h2
      refine ⟨rfl, fun s => ⟨fun hs => absurd hs (List.not_mem_nil s), ?_⟩⟩
      rintro ⟨p, hp, -⟩
      exact absurd hp emitFrom_nil
    | cons a rest =>
      simp only [goArcs] at h
      exact Except.noConfusion h
  | succ fuel ih =>
    intro arcs path pathE sents h
    cases arcs with
    | nil =>
      simp only [goArcs, Except.ok.injEq, Prod.mk.injEq] at h
      obtain ⟨h1, h2⟩ := h
      subst h1; subst h2
      refine ⟨rfl, fun s => ⟨fun hs => absurd hs (List.not_mem_nil s), ?_⟩⟩
      rintro ⟨p, hp, -⟩
      exact absurd hp emitFrom_nil
    | cons a rest =>
      cases hfin : A.finalNZ a.nextstate with
      | true =>
        simp only [goArcs, hfin, if_true] at h
        cases hsent : pathToSentence A excl eps (path ++ [a]) with
        | error e => rw [hsent] at h; exact absurd h (by simp)
        | ok sentence =>
          rw [hsent] at h
          cases hrest : goArcs A excl eps fuel rest ((path ++ [a]).dropLast) with
          | error e => rw [hrest] at h; exact absurd h (by simp)
          | ok pr =>
            obtain ⟨pathEnd, rst⟩ := pr
            rw [hrest] at h
            simp only [Except.ok.injEq, Prod.mk.injEq] at h
            obtain ⟨h1, h2⟩ := h
            subst h1; subst h2
            obtain ⟨hpe, hmem⟩ := ih rest ((path ++ [a]).dropLast) _ _ hrest
            rw [dropLast_append_one] at hpe
            rw [dropLast_append_one] at hmem
            refine ⟨hpe, fun s => ?_⟩
            rw [List.mem_cons, hmem s]
            constructor
            · rintro (rfl | ⟨p, hp, hps⟩)
              · exact ⟨[a], .emit a _ (List.mem_cons_self a rest) hfin, hsent⟩
              · exact ⟨p, emitFrom_tail hp, hps⟩
            · rintro ⟨p, hp, hps⟩
              rcases (emitFrom_cons_iff A a rest p).mp hp with
                ⟨-, rfl⟩ | ⟨hf, q, rfl, hq⟩ | hp2
              · left
                exact Except.ok.inj (hps.symm.trans hsent)
              · rw [hf] at hfin; exact absurd hfin (by simp)
              · exact Or.inr ⟨p, hp2, hps⟩
      | false =>
        simp only [goArcs, hfin, Bool.false_eq_true, if_false] at h
        split at h
        · exact Except.noConfusion h
        · rename_i path2 subs hsub
          obtain ⟨hp2, hmemsub⟩ := ih _ _ _ _ hsub
          split at h
          · exact Except.noConfusion h
          · rename_i pathEnd rst hrest
            simp only [Except.ok.injEq, Prod.mk.injEq] at h
            obtain ⟨h1, h2⟩ := h
            subst h1; subst h2
            obtain ⟨hpe, hmemrest⟩ := ih rest (path2.dropLast) _ _ hrest
            rw [hp2, dropLast_append_one] at hpe hmemrest
            refine ⟨hpe, fun s => ?_⟩
            rw [List.mem_append, hmemsub s, hmemrest s]
            constructor
            · rintro (⟨q, hq, hqs⟩ | ⟨p, hp, hps⟩)
              · refine ⟨a :: q, .step a _ q (List.mem_cons_self a rest) hfin hq, ?_⟩
                rw [← hqs]
                congr 1
                simp
              · exact ⟨p, emitFrom_tail hp, hps⟩
            · rintro ⟨p, hp, hps⟩
              rcases (emitFrom_cons_iff A a rest p).mp hp with
                ⟨hf, rfl⟩ | ⟨-, q, rfl, hq⟩ | hp2'
              · rw [hf] at hfin; exact absurd hfin (by simp)
              · refine Or.inl ⟨q, hq, ?_⟩
                rw [← hps]
                congr 1
                simp
              · exact Or.inr ⟨p, hp2', hps⟩

lemma s2iStep_eps (rt : Bool) (st : DecState) :
    s2iStep rt st "<eps>" = Except.ok st := by
  simp [s2iStep]

lemma s2iStep_begin {x : String} (rt : Bool) (st : DecState)
    (hne : x ≠ "<eps>") (hb : pyStartsWith x "__begin__" = true) :
    s2iStep rt st x =
      Except.ok { st with tag := some (pyDrop x 9), tagSymbols := [] } := by
  simp [s2iStep, hne, hb]

lemma s2iStep_end_mismatch {x : String} (rt : Bool) (st : DecState)
    (hne : x ≠ "<eps>") (hb : pyStartsWith x "__begin__" = false)
    (he : pyStartsWith x "__end__" = true) (htag : st.tag ≠ some (pyDrop x 7)) :
    s2iStep rt st x = Except.error "Mismatched tags" := by
  simp [s2iStep, hne, hb, he, htag]

lemma s2iStep_end_match {x : String} (rt : Bool) (st : DecState)
    (hne : x ≠ "<eps>") (hb : pyStartsWith x "__begin__" = false)
    (he : pyStartsWith x "__end__" = true) (htag : st.tag = some (pyDrop x 7)) :
    s2iStep rt st x = Except.ok { st with
      entities := st.entities ++
        [if rt && pyContainsChar (pyDrop x 7) ':' then
          { entity := pyTakeWhile (pyDrop x 7) (fun c => c ≠ ':'),
            value := pyDrop (pyDropWhile (pyDrop x 7) (fun c => c ≠ ':')) 1 }
        else
          { entity := pyDrop x 7, value := String.intercalate " " st.tagSymbols }],
      tag := none } := by
  by_cases hc : rt && pyContainsChar (pyDrop x 7) ':' <;>
    simp [s2iStep, hne, hb, he, htag, hc]

lemma s2iStep_label {x : String} (rt : Bool) (st : DecState)
    (hne : x ≠ "<eps>") (hb : pyStartsWith x "__begin__" = false)
    (he : pyStartsWith x "__end__" = false) (hl : pyStartsWith x "__label__" = true) :
    s2iStep rt st x = Except.ok { st with
      intentName := match st.intentName with
        | none => some (pyDrop x 9)
        | some n => some n } := by
  simp [s2iStep, hne, hb, he, hl]

lemma s2iStep_literal {x : String} (rt : Bool) (st : DecState)
    (hne : x ≠ "<eps>") (hb : pyStartsWith x "__begin__" = false)
    (he : pyStartsWith x "__end__" = false) (hl : pyStartsWith x "__label__" = false) :
    s2iStep rt st x = Except.ok
      (if tagTruthy st.tag then
        { st with tagSymbols := st.tagSymbols ++ [x],
                  outSymbols := st.outSymbols ++ [x] }
      else
        { st with outSymbols := st.outSymbols ++ [x] }) := by
  by_cases ht : tagTruthy st.tag <;> simp [s2iStep, hne, hb, he, hl, ht]

lemma s2iRun_cons (rt : Bool) (st : DecState) (x : String) (xs : List String) :
    s2iRun rt st (x :: xs) =
      match s2iStep rt st x with
      | Except.error e => Except.error e
      | Except.ok st1 => s2iRun rt st1 xs := rfl

lemma s2iRun_append (rt : Bool) (l1 l2 : List String) :
    ∀ st : DecState, s2iRun rt st (l1 ++ l2) =
      match s2iRun rt st l1 with
      | Except.error e => Except.error e
      | Except.ok st1 => s2iRun rt st1 l2 := by
  induction l1 with
  | nil =>
    intro st
    simp [s2iRun]
  | cons x xs ih =>
    intro st
    simp only [List.cons_append, s2iRun_cons]
    cases s2iStep rt st x with
    | error e => rfl
    | ok st1 => exact ih st1

lemma s2i_ok_structure {symbols : List String} {name : Option String}
    {rt : Bool} {i : Intent}
    (h : symbols2intent symbols name rt = Except.ok i) :
    ∃ st, s2iRun rt (initDecState name) symbols = Except.ok st ∧
      i = s2iFinalize st := by
  unfold symbols2intent s2iFrom at h
  cases hr : s2iRun rt (initDecState name) symbols with
  | error e => rw [hr] at h; exact Except.noConfusion h
  | ok st => rw [hr] at h; exact ⟨st, rfl, (Except.ok.inj h).symm⟩

lemma s2iFinalize_conf (st : DecState) :
    (s2iFinalize st).intent.confidence =
      (if (s2iFinalize st).tokens.isEmpty then (0 : ℚ) else 1) := by
  cases hlist : st.outSymbols with
  | nil => simp [s2iFinalize, hlist]
  | cons y ys => simp [s2iFinalize, hlist]

lemma s2i_conf {x : List String} {name : Option String} {rt : Bool} {i : Intent}
    (h : symbols2intent x name rt = Except.ok i) :
    i.intent.confidence = (if i.tokens.isEmpty then (0 : ℚ) else 1) := by
  obtain ⟨st, hr, rfl⟩ := s2i_ok_structure h
  exact s2iFinalize_conf st

lemma sumConf_cons (r : Intent) (l : List Intent) :
    sumConf (r :: l) = r.intent.confidence + sumConf l := by
  simp [sumConf]

lemma decodeLoop_sum (name : Option String) (rt : Bool) (n : Nat) :
    ∀ l : List (List String),
      (∀ x ∈ l, ∃ i, symbols2intent x name rt = Except.ok i) →
      sumConf (decodeLoop n name rt l) =
        (l.countP (decodesNonempty name rt) : ℚ) / (n : ℚ) := by
  intro l
  induction l with
  | nil =>
    intro
    simp [decodeLoop, sumConf]
  | cons x xs ih =>
    intro hall
    obtain ⟨i, hsx⟩ := hall x (List.mem_cons_self x xs)
    have hsum := ih fun y hy => hall y (List.mem_cons_of_mem x hy)
    have hconf := s2i_conf hsx
    simp only [decodeLoop, hsx]
    rw [sumConf_cons, hsum, List.countP_cons]
    have hsc : (scaleIntent n i).intent.confidence =
        i.intent.confidence / (n : ℚ) := rfl
    rw [hsc, hconf]
    cases hemp : i.tokens.isEmpty with
    | true =>
      have hdn : decodesNonempty name rt x = false := by
        simp [decodesNonempty, hsx, hemp]
      simp [hdn]
    | false =>
      have hdn : decodesNonempty name rt x = true := by
        simp [decodesNonempty, hsx, hemp]
      simp only [hdn, if_true]
      push_cast
      ring

lemma decodeLoop_mem {n : Nat} {name : Option String} {rt : Bool} :
    ∀ {l : List (List String)} {r : Intent},
      r ∈ decodeLoop n name rt l →
      ∃ x i, x ∈ l ∧ symbols2intent x name rt = Except.ok i ∧
        r = scaleIntent n i := by
  intro l
  induction l with
  | nil =>
    intro r hr
    simp [decodeLoop] at hr
  | cons x xs ih =>
    intro r hr
    simp only [decodeLoop] at hr
    cases hsx : symbols2intent x name rt with
    | error e =>
      rw [hsx] at hr
      simp at hr
    | ok i =>
      rw [hsx] at hr
      simp only [List.mem_cons] at hr
      rcases hr with rfl | hr2
      · exact ⟨x, i, List.mem_cons_self x xs, hsx, rfl⟩
      · obtain ⟨y, j, hy, hj, hrj⟩ := ih hr2
        exact ⟨y, j, List.mem_cons_of_mem x hy, hj, hrj⟩

lemma decodeLoop_stops (n : Nat) (name : Option String) (rt : Bool) :
    ∀ (front : List (List String)) (x : List String) (back : List (List String)),
      (∀ y ∈ front, ∃ i, symbols2intent y name rt = Except.ok i) →
      (∃ e, symbols2intent x name rt = Except.error e) →
      decodeLoop n name rt (front ++ x :: back) =
        front.filterMap
          (fun y => (symbols2intent y name rt).toOption.map (scaleIntent n)) := by
  intro front
  induction front with
  | nil =>
    intro x back _ hx
    obtain ⟨e, he⟩ := hx
    simp [decodeLoop, he]
  | cons y ys ih =>
    intro x back hall hx
    obtain ⟨i, hy⟩ := hall y (List.mem_cons_self y ys)
    simp only [List.cons_append, decodeLoop, hy, List.filterMap_cons, List.append_eq]
    rw [ih x back (fun z hz => hall z (List.mem_cons_of_mem y hz)) hx]
    simp [hy, Except.toOption]

lemma fstaccept_eq_decodeLoop {applyFst : List String → Except String FST}
    {fuel : Nat} {sentence : String} {name : Option String} {rt : Bool}
    {A : FST} {outs : List (List String)}
    (hA : applyFst (pyTokenize sentence) = Except.ok A)
    (houts : fstprintall fuel A false = Except.ok outs) :
    fstaccept applyFst fuel sentence name rt =
      decodeLoop outs.length name rt outs := by
  simp [fstaccept, hA, houts]

lemma pathToSentence_literal (A : FST) (eps : Nat) :
    ∀ (p : List Arc) (alls : List String),
      pathToSentence A false eps p = Except.ok alls →
      pathToSentence A true eps p =
        Except.ok (alls.filter (fun s => !pyStartsWith s "__")) := by
  intro p
  induction p with
  | nil =>
    intro alls h
    simp only [pathToSentence, Except.ok.injEq] at h
    subst h
    rfl
  | cons a rest ih =>
    intro alls h
    simp only [pathToSentence] at h ⊢
    by_cases holab : a.olabel = eps
    · rw [if_pos holab] at h ⊢
      exact ih alls h
    · rw [if_neg holab] at h ⊢
      cases hsym : A.outSyms a.olabel with
      | none => rw [hsym] at h; exact Except.noConfusion h
      | some osym =>
        rw [hsym] at h
        simp only [Bool.false_and, Bool.false_eq_true, if_false] at h
        cases hrest : pathToSentence A false eps rest with
        | error e => rw [hrest] at h; exact Except.noConfusion h
        | ok sent =>
          rw [hrest] at h
          have h2 : Except.ok (osym :: sent) = Except.ok alls := h
          have halls : alls = osym :: sent := (Except.ok.inj h2).symm
          subst halls
          have ihr := ih sent hrest
          cases hu : pyStartsWith osym "__" with
          | true => simp [hu, ihr]
          | false => simp [hu, ihr]

lemma s2iRun_out_filter (rt : Bool) :
    ∀ (symbols : List String) (st st1 : DecState),
      (∀ s ∈ symbols, markerOrPlain s) →
      s2iRun rt st symbols = Except.ok st1 →
      st1.outSymbols =
        st.outSymbols ++ symbols.filter (fun s => !pyStartsWith s "__") := by
  intro symbols
  induction symbols with
  | nil =>
    intro st st1 _ h
    simp only [s2iRun, Except.ok.injEq] at h
    subst h
    simp
  | cons x xs ih =>
    intro st st1 hall h
    have hx := hall x (List.mem_cons_self x xs)
    have hxs : ∀ s ∈ xs, markerOrPlain s :=
      fun s hs => hall s (List.mem_cons_of_mem x hs)
    rw [s2iRun_cons] at h
    rcases hx with ⟨hb, hu⟩ | ⟨hb, he, hu⟩ | ⟨hb, he, hl, hu⟩ | ⟨hb, he, hl, hu, hne⟩
    · have hne : x ≠ "<eps>" := by
        intro hx0; rw [hx0] at hu; exact absurd hu (by decide)
      rw [s2iStep_begin rt st hne hb] at h
      have h2 : s2iRun rt { st with tag := some (pyDrop x 9), tagSymbols := [] } xs =
          Except.ok st1 := h
      rw [ih _ _ hxs h2]
      simp [List.filter_cons, hu]
    · have hne : x ≠ "<eps>" := by
        intro hx0; rw [hx0] at hu; exact absurd hu (by decide)
      by_cases htag : st.tag = some (pyDrop x 7)
      · rw [s2iStep_end_match rt st hne hb he htag] at h
        have h2 : s2iRun rt { st with
            entities := st.entities ++
              [if rt && pyContainsChar (pyDrop x 7) ':' then
                { entity := pyTakeWhile (pyDrop x 7) (fun c => c ≠ ':'),
                  value := pyDrop (pyDropWhile (pyDrop x 7) (fun c => c ≠ ':')) 1 }
              else
                { entity := pyDrop x 7,
                  value := String.intercalate " " st.tagSymbols }],
            tag := none } xs = Except.ok st1 := h
        rw [ih _ _ hxs h2]
        simp [List.filter_cons, hu]
      · rw [s2iStep_end_mismatch rt st hne hb he htag] at h
        exact Except.noConfusion h
    · have hne : x ≠ "<eps>" := by
        intro hx0; rw [hx0] at hu; exact absurd hu (by decide)
      rw [s2iStep_label rt st hne hb he hl] at h
      have h2 : s2iRun rt { st with
          intentName := match st.intentName with
            | none => some (pyDrop x 9)
            | some n => some n } xs = Except.ok st1 := h
      rw [ih _ _ hxs h2]
      simp [List.filter_cons, hu]
    · rw [s2iStep_literal rt st hne hb he hl] at h
      by_cases ht : tagTruthy st.tag
      · rw [if_pos ht] at h
        have h2 : s2iRun rt { st with
            tagSymbols := st.tagSymbols ++ [x],
            outSymbols := st.outSymbols ++ [x] } xs = Except.ok st1 := h
        rw [ih _ _ hxs h2]
        simp [List.filter_cons, hu]
      · rw [if_neg ht] at h
        have h2 : s2iRun rt { st with outSymbols := st.outSymbols ++ [x] } xs =
            Except.ok st1 := h
        rw [ih _ _ hxs h2]
        simp [List.filter_cons, hu]

lemma s2iRun_no_end (rt : Bool) :
    ∀ (symbols : List String) (st : DecState),
      (∀ s ∈ symbols, pyStartsWith s "__end__" = false) →
      ∃ st1, s2iRun rt st symbols = Except.ok st1 ∧
        st1.entities = st.entities ∧
        st1.outSymbols = st.outSymbols ++ symbols.filter isLiteralSym := by
  intro symbols
  induction symbols with
  | nil =>
    intro st _
    exact ⟨st, rfl, rfl, by simp⟩
  | cons x xs ih =>
    intro st hall
    have hx := hall x (List.mem_cons_self x xs)
    have hxs : ∀ s ∈ xs, pyStartsWith s "__end__" = false :=
      fun s hs => hall s (List.mem_cons_of_mem x hs)
    by_cases heps : x = "<eps>"
    · subst heps
      obtain ⟨st1, h1, h2, h3⟩ := ih st hxs
      refine ⟨st1, ?_, h2, ?_⟩
      · rw [s2iRun_cons, s2iStep_eps]
        exact h1
      · rw [h3]
        have hlit : isLiteralSym "<eps>" = false := by decide
        simp [List.filter_cons, hlit]
    · cases hb : pyStartsWith x "__begin__" with
      | true =>
        obtain ⟨st1, h1, h2, h3⟩ :=
          ih { st with tag := some (pyDrop x 9), tagSymbols := [] } hxs
        refine ⟨st1, ?_, h2, ?_⟩
        · rw [s2iRun_cons, s2iStep_begin rt st heps hb]
          exact h1
        · rw [h3]
          have hlit : isLiteralSym x = false := by
            simp [isLiteralSym, hb]
          simp [List.filter_cons, hlit]
      | false =>
        cases hl : pyStartsWith x "__label__" with
        | true =>
          obtain ⟨st1, h1, h2, h3⟩ := ih { st with
            intentName := match st.intentName with
              | none => some (pyDrop x 9)
              | some n => some n } hxs
          refine ⟨st1, ?_, h2, ?_⟩
          · rw [s2iRun_cons, s2iStep_label rt st heps hb hx hl]
            exact h1
          · rw [h3]
            have hlit : isLiteralSym x = false := by
              simp [isLiteralSym, hl]
            simp [List.filter_cons, hlit]
        | false =>
          have hbeq : (x == "<eps>") = false := beq_eq_false_iff_ne.mpr heps
          have hlit : isLiteralSym x = true := by
            simp [isLiteralSym, hbeq, hb, hx, hl]
          by_cases ht : tagTruthy st.tag
          · obtain ⟨st1, h1, h2, h3⟩ := ih { st with
              tagSymbols := st.tagSymbols ++ [x],
              outSymbols := st.outSymbols ++ [x] } hxs
            refine ⟨st1, ?_, h2, ?_⟩
            · rw [s2iRun_cons, s2iStep_literal rt st heps hb hx hl, if_pos ht]
              exact h1
            · rw [h3]
              simp [List.filter_cons, hlit]
          · obtain ⟨st1, h1, h2, h3⟩ := ih { st with
              outSymbols := st.outSymbols ++ [x] } hxs
            refine ⟨st1, ?_, h2, ?_⟩
            · rw [s2iRun_cons, s2iStep_literal rt st heps hb hx hl, if_neg ht]
              exact h1
            · rw [h3]
              simp [List.filter_cons, hlit]

lemma s2iRun_replace_sim :
    ∀ (symbols : List String) (st1 st2 r1 : DecState),
      st1.tag = st2.tag → st1.tagSymbols = st2.tagSymbols →
      st1.outSymbols = st2.outSymbols → st1.intentName = st2.intentName →
      List.Forall₂ entityRel st1.entities st2.entities →
      s2iRun true st1 symbols = Except.ok r1 →
      ∃ r2, s2iRun false st2 symbols = Except.ok r2 ∧
        r1.tag = r2.tag ∧ r1.tagSymbols = r2.tagSymbols ∧
        r1.outSymbols = r2.outSymbols ∧ r1.intentName = r2.intentName ∧
        List.Forall₂ entityRel r1.entities r2.entities := by
  intro symbols
  induction symbols with
  | nil =>
    intro st1 st2 r1 htag hts hos hin hent h
    simp only [s2iRun, Except.ok.injEq] at h
    subst h
    exact ⟨st2, rfl, htag, hts, hos, hin, hent⟩
  | cons x xs ih =>
    intro st1 st2 r1 htag hts hos hin hent h
    rw [s2iRun_cons] at h
    by_cases heps : x = "<eps>"
    · subst heps
      rw [s2iStep_eps] at h
      have h1 : s2iRun true st1 xs = Except.ok r1 := h
      obtain ⟨r2, hrun, a1, a2, a3, a4, a5⟩ :=
        ih st1 st2 r1 htag hts hos hin hent h1
      refine ⟨r2, ?_, a1, a2, a3, a4, a5⟩
      rw [s2iRun_cons, s2iStep_eps]
      exact hrun
    · cases hb : pyStartsWith x "__begin__" with
      | true =>
        rw [s2iStep_begin true st1 heps hb] at h
        have h1 : s2iRun true
            { st1 with tag := some (pyDrop x 9), tagSymbols := [] } xs =
            Except.ok r1 := h
        obtain ⟨r2, hrun, a1, a2, a3, a4, a5⟩ :=
          ih { st1 with tag := some (pyDrop x 9), tagSymbols := [] }
            { st2 with tag := some (pyDrop x 9), tagSymbols := [] } r1
            rfl rfl hos hin hent h1
        refine ⟨r2, ?_, a1, a2, a3, a4, a5⟩
        rw [s2iRun_cons, s2iStep_begin false st2 heps hb]
        exact hrun
      | false =>
        cases he : pyStartsWith x "__end__" with
        | true =>
          by_cases htag1 : st1.tag = some (pyDrop x 7)
          · have htag2 : st2.tag = some (pyDrop x 7) := by
              rw [← htag]; exact htag1
            rw [s2iStep_end_match true st1 heps hb he htag1] at h
            cases hc : pyContainsChar (pyDrop x 7) ':' with
            | true =>
              rw [hc] at h
              have h1 : s2iRun true { st1 with
                  entities := st1.entities ++
                    [{ entity := pyTakeWhile (pyDrop x 7) (fun c => c ≠ ':'),
                       value := pyDrop (pyDropWhile (pyDrop x 7) (fun c => c ≠ ':')) 1 }],
                  tag := none } xs = Except.ok r1 := h
              have hrel : entityRel
                  { entity := pyTakeWhile (pyDrop x 7) (fun c => c ≠ ':'),
                    value := pyDrop (pyDropWhile (pyDrop x 7) (fun c => c ≠ ':')) 1 }
                  { entity := pyDrop x 7,
                    value := String.intercalate " " st2.tagSymbols } := by
                constructor
                · intro
                  rfl
                · intro hcf
                  rw [hc] at hcf
                  exact Bool.noConfusion hcf
              obtain ⟨r2, hrun, a1, a2, a3, a4, a5⟩ :=
                ih { st1 with
                  entities := st1.entities ++
                    [{ entity := pyTakeWhile (pyDrop x 7) (fun c => c ≠ ':'),
                       value := pyDrop (pyDropWhile (pyDrop x 7) (fun c => c ≠ ':')) 1 }],
                  tag := none } { st2 with
                  entities := st2.entities ++
                    [{ entity := pyDrop x 7,
                       value := String.intercalate " " st2.tagSymbols }],
                  tag := none } r1 rfl hts hos hin
                  (List.rel_append hent (List.Forall₂.cons hrel List.Forall₂.nil)) h1
              refine ⟨r2, ?_, a1, a2, a3, a4, a5⟩
              rw [s2iRun_cons, s2iStep_end_match false st2 heps hb he htag2]
              exact hrun
            | false =>
              rw [hc] at h
              have h1 : s2iRun true { st1 with
                  entities := st1.entities ++
                    [{ entity := pyDrop x 7,
                       value := String.intercalate " " st1.tagSymbols }],
                  tag := none } xs = Except.ok r1 := h
              have hrel : entityRel
                  { entity := pyDrop x 7,
                    value := String.intercalate " " st1.tagSymbols }
                  { entity := pyDrop x 7,
                    value := String.intercalate " " st2.tagSymbols } := by
                constructor
                · intro hcf
                  rw [hc] at hcf
                  exact Bool.noConfusion hcf
                · intro
                  rw [hts]
              obtain ⟨r2, hrun, a1, a2, a3, a4, a5⟩ :=
                ih { st1 with
                  entities := st1.entities ++
                    [{ entity := pyDrop x 7,
                       value := String.intercalate " " st1.tagSymbols }],
                  tag := none } { st2 with
                  entities := st2.entities ++
                    [{ entity := pyDrop x 7,
                       value := String.intercalate " " st2.tagSymbols }],
                  tag := none } r1 rfl hts hos hin
                  (List.rel_append hent (List.Forall₂.cons hrel List.Forall₂.nil)) h1
              refine ⟨r2, ?_, a1, a2, a3, a4, a5⟩
              rw [s2iRun_cons, s2iStep_end_match false st2 heps hb he htag2]
              exact hrun
          · rw [s2iStep_end_mismatch true st1 heps hb he htag1] at h
            exact Except.noConfusion h
        | false =>
          cases hl : pyStartsWith x "__label__" with
          | true =>
            rw [s2iStep_label true st1 heps hb he hl] at h
            have h1 : s2iRun true { st1 with
                intentName := match st1.intentName with
                  | none => some (pyDrop x 9)
                  | some n => some n } xs = Except.ok r1 := h
            obtain ⟨r2, hrun, a1, a2, a3, a4, a5⟩ :=
              ih { st1 with
                intentName := match st1.intentName with
                  | none => some (pyDrop x 9)
                  | some n => some n } { st2 with
                intentName := match st2.intentName with
                  | none => some (pyDrop x 9)
                  | some n => some n } r1 htag hts hos (by rw [hin]) hent h1
            refine ⟨r2, ?_, a1, a2, a3, a4, a5⟩
            rw [s2iRun_cons, s2iStep_label false st2 heps hb he hl]
            exact hrun
          | false =>
            by_cases ht : tagTruthy st1.tag
            · have ht2 : tagTruthy st2.tag := by rw [← htag]; exact ht
              rw [s2iStep_literal true st1 heps hb he hl, if_pos ht] at h
              have h1 : s2iRun true { st1 with
                  tagSymbols := st1.tagSymbols ++ [x],
                  outSymbols := st1.outSymbols ++ [x] } xs = Except.ok r1 := h
              obtain ⟨r2, hrun, a1, a2, a3, a4, a5⟩ :=
                ih { st1 with
                  tagSymbols := st1.tagSymbols ++ [x],
                  outSymbols := st1.outSymbols ++ [x] } { st2 with
                  tagSymbols := st2.tagSymbols ++ [x],
                  outSymbols := st2.outSymbols ++ [x] } r1 htag
                  (by rw [hts]) (by rw [hos]) hin hent h1
              refine ⟨r2, ?_, a1, a2, a3, a4, a5⟩
              rw [s2iRun_cons, s2iStep_literal false st2 heps hb he hl, if_pos ht2]
              exact hrun
            · have ht2 : ¬ tagTruthy st2.tag := by rw [← htag]; exact ht
              rw [s2iStep_literal true st1 heps hb he hl, if_neg ht] at h
              have h1 : s2iRun true { st1 with
                  outSymbols := st1.outSymbols ++ [x] } xs = Except.ok r1 := h
              obtain ⟨r2, hrun, a1, a2, a3, a4, a5⟩ :=
                ih { st1 with
                  outSymbols := st1.outSymbols ++ [x] } { st2 with
                  outSymbols := st2.outSymbols ++ [x] } r1 htag hts
                  (by rw [hos]) hin hent h1
              refine ⟨r2, ?_, a1, a2, a3, a4, a5⟩
              rw [s2iRun_cons, s2iStep_literal false st2 heps hb he hl, if_neg ht2]
              exact hrun

/-- Claim C2 (amended): an Except.ok run of fstprintall returns exactly
the output-symbol sequences of the nonempty paths from the start state
whose last arc reaches a state of non-zero final weight and whose
earlier arcs all reach states of zero final weight (recursing through
the Python redirection of target id 0 to the start state); the empty
path at an accepting start state and paths continuing beyond an
accepting state are never produced. -/
theorem fstprintall_emitted_paths (fuel : Nat) (A : FST) (excl : Bool)
    (sents : List (List String))
    (h : fstprintall fuel A excl = Except.ok sents) (s : List String) :
    s ∈ sents ↔ ∃ p, EmitFrom A (A.arcsOf A.start) p ∧
      pathToSentence A excl 0 p = Except.ok s := by
  unfold fstprintall at h
  cases hgo : goArcs A excl 0 fuel (A.arcsOf A.start) [] with
  | error e => rw [hgo] at h; exact Except.noConfusion h
  | ok pr =>
    obtain ⟨pathEnd, sents2⟩ := pr
    rw [hgo] at h
    have h2 : Except.ok sents2 = Except.ok sents := h
    have hs : sents2 = sents := Except.ok.inj h2
    subst hs
    have hiff := (goArcs_ok A excl 0 fuel (A.arcsOf A.start) [] pathEnd sents2 hgo).2 s
    simpa using hiff

/-- Witness for C2: the characterization applied to the concrete chain
automaton fstC2. -/
theorem fstprintall_emitted_paths_witness :
    ["a"] ∈ [["a"]] ↔ ∃ p, EmitFrom fstC2 (fstC2.arcsOf fstC2.start) p ∧
      pathToSentence fstC2 false 0 p = Except.ok ["a"] :=
  fstprintall_emitted_paths 10 fstC2 false [["a"]] (by decide) ["a"]

/-- Counterexample for C2 as stated: in fstC2 every state is
accepting, so the empty path and the two-arc path are accepting paths
in the sense of the spec, yet fstprintall produces only the one-arc
sequence. -/
theorem fstprintall_misses_accepting_paths :
    fstprintall 10 fstC2 false = Except.ok [["a"]] ∧
    AccPath fstC2 fstC2.start [] ∧
    pathToSentence fstC2 false 0 [] = Except.ok [] ∧
    ¬ (([] : List String) ∈ [(["a"] : List String)]) ∧
    AccPath fstC2 fstC2.start [Arc.mk 1 1 1, Arc.mk 2 2 2] ∧
    pathToSentence fstC2 false 0 [Arc.mk 1 1 1, Arc.mk 2 2 2] =
      Except.ok ["a", "b"] ∧
    ¬ (["a", "b"] ∈ [(["a"] : List String)]) := by
  refine ⟨by decide, AccPath.nil 0 rfl, by decide, by decide, ?_, by decide, by decide⟩
  refine AccPath.cons 0 (Arc.mk 1 1 1) _ (by decide) ?_
  exact AccPath.cons 1 (Arc.mk 2 2 2) _ (by decide) (AccPath.nil 2 rfl)

/-- Claim C10 (confirmed): on every normal return the arc loop of
fstprintall leaves the threaded path buffer exactly as it was at
entry, so neither sibling branches nor the caller observe leftover
arcs. -/
theorem fstprintall_restores_path (A : FST) (excl : Bool) (eps fuel : Nat)
    (arcs path pathE : List Arc) (sents : List (List String))
    (h : goArcs A excl eps fuel arcs path = Except.ok (pathE, sents)) :
    pathE = path :=
  (goArcs_ok A excl eps fuel arcs path pathE sents h).1

/-- Witness for C10: a run of the arc loop over fstC2 with a seeded
path buffer returns that buffer unchanged. -/
theorem fstprintall_restores_path_witness :
    goArcs fstC2 false 0 10 (fstC2.arcsOf fstC2.start) [Arc.mk 0 0 5] =
      Except.ok ([Arc.mk 0 0 5], [["a"]]) ∧
    ([Arc.mk 0 0 5] : List Arc) = [Arc.mk 0 0 5] :=
  ⟨by decide, fstprintall_restores_path fstC2 false 0 10
    (fstC2.arcsOf fstC2.start) [Arc.mk 0 0 5] [Arc.mk 0 0 5] [["a"]] (by decide)⟩

/-- Claim C5 (confirmed): when the decoder reaches an end marker whose
name differs from the currently open tag (in particular when no tag is
open at all), symbols2intent fails with the mismatched-tags error for
that path. -/
theorem s2i_end_mismatch_error (rt : Bool) (name : Option String)
    (pre rest : List String) (st : DecState) (sym : String)
    (hpre : s2iRun rt (initDecState name) pre = Except.ok st)
    (he : pyStartsWith sym "__end__" = true)
    (hb : pyStartsWith sym "__begin__" = false)
    (hne : sym ≠ "<eps>")
    (hmm1 : st.tag ≠ some (pyDrop sym 7)) :
    ∃ e, symbols2intent (pre ++ sym :: rest) name rt = Except.error e := by
  refine ⟨"Mismatched tags", ?_⟩
  have hrun : s2iRun rt (initDecState name) (pre ++ sym :: rest) =
      Except.error "Mismatched tags" := by
    rw [s2iRun_append rt pre (sym :: rest), hpre]
    show s2iRun rt st (sym :: rest) = Except.error "Mismatched tags"
    rw [s2iRun_cons, s2iStep_end_mismatch rt st hne hb he hmm1]
  unfold symbols2intent s2iFrom
  rw [hrun]

/-- Witness for C5: an end marker with no open tag makes the decoder
fail. -/
theorem s2i_end_mismatch_error_witness :
    (initDecState none).tag ≠ some (pyDrop "__end__x" 7) ∧
    (∃ e, symbols2intent ([] ++ "__end__x" :: []) none true = Except.error e) :=
  ⟨by decide, s2i_end_mismatch_error true none [] [] (initDecState none)
    "__end__x" rfl (by decide) (by decide) (by decide) (by decide)⟩

/-- Claim C8 (amended): a begin marker seen while a tag is open raises
no error at that step: decoding continues from the state whose tag is
the new name and whose tag buffer is empty, with the entity list (no
entity for the abandoned tag) and the accumulated output tokens
unchanged; the whole call still fails if the remaining symbols
contain an unrelated mismatched end marker. -/
theorem nested_begin_continues (rt : Bool) (name : Option String)
    (pre rest : List String) (st : DecState) (a sym : String)
    (hpre : s2iRun rt (initDecState name) pre = Except.ok st)
    (htag : st.tag = some a)
    (hb : pyStartsWith sym "__begin__" = true)
    (hne : sym ≠ "<eps>") :
    symbols2intent (pre ++ sym :: rest) name rt =
      s2iFrom rt { st with tag := some (pyDrop sym 9), tagSymbols := [] } rest ∧
    ({ st with tag := some (pyDrop sym 9), tagSymbols := [] } : DecState).entities
      = st.entities ∧
    ({ st with tag := some (pyDrop sym 9), tagSymbols := [] } : DecState).outSymbols
      = st.outSymbols := by
  refine ⟨?_, rfl, rfl⟩
  unfold symbols2intent s2iFrom
  have hrun : s2iRun rt (initDecState name) (pre ++ sym :: rest) =
      s2iRun rt { st with tag := some (pyDrop sym 9), tagSymbols := [] } rest := by
    rw [s2iRun_append rt pre (sym :: rest), hpre]
    show s2iRun rt st (sym :: rest) = _
    rw [s2iRun_cons, s2iStep_begin rt st hne hb]
  rw [hrun]

/-- Witness for C8: a nested begin inside tag "a" continues decoding
with tag "b", empty buffer, unchanged entities and tokens. -/
theorem nested_begin_continues_witness :
    symbols2intent (["__begin__a", "x"] ++ "__begin__b" :: ["y", "__end__b"])
        none true =
      s2iFrom true { tag := some (pyDrop "__begin__b" 9), tagSymbols := [], outSymbols := ["x"], intentName := none, entities := [] } ["y", "__end__b"] ∧
    ({ tag := some (pyDrop "__begin__b" 9), tagSymbols := [], outSymbols := ["x"], intentName := none, entities := [] } : DecState).entities = [] ∧
    ({ tag := some (pyDrop "__begin__b" 9), tagSymbols := [], outSymbols := ["x"], intentName := none, entities := [] } : DecState).outSymbols = ["x"] :=
  nested_begin_continues true none ["__begin__a", "x"] ["y", "__end__b"]
    { tag := some "a", tagSymbols := ["x"], outSymbols := ["x"],
      intentName := none, entities := [] }
    "a" "__begin__b" rfl rfl (by decide) (by decide)

/-- Counterexample for C8 as stated: a sequence containing a begin
marker while a tag is open on which symbols2intent nevertheless raises
(the remaining symbols hold a mismatched end marker), so the
universal no-error statement of the claim fails. -/
theorem nested_begin_sequence_error :
    (∃ st, s2iRun true (initDecState none) ["__begin__a"] = Except.ok st ∧
      st.tag = some "a") ∧
    pyStartsWith "__begin__b" "__begin__" = true ∧
    (∃ e, symbols2intent ["__begin__a", "__begin__b", "__end__c"] none true =
      Except.error e) :=
  ⟨⟨_, rfl, rfl⟩, by decide, ⟨"Mismatched tags", by decide⟩⟩

/-- Claim C9 (amended): after a begin marker that is never matched,
decoding returns normally provided no end marker at all follows it:
no entity is emitted for the unclosed tag and the literal tokens seen
after the begin still appear in the tokens and text of the record; an
unmatched end marker of a different name in the remainder instead
aborts the path. -/
theorem unclosed_tag_decodes (rt : Bool) (name : Option String)
    (pre rest : List String) (st : DecState) (sym : String)
    (hpre : s2iRun rt (initDecState name) pre = Except.ok st)
    (hb : pyStartsWith sym "__begin__" = true)
    (hne : sym ≠ "<eps>")
    (hrest : ∀ x ∈ rest, pyStartsWith x "__end__" = false) :
    ∃ i, symbols2intent (pre ++ sym :: rest) name rt = Except.ok i ∧
      i.entities = st.entities ∧
      i.tokens = st.outSymbols ++ rest.filter isLiteralSym ∧
      i.text = String.intercalate " " i.tokens := by
  obtain ⟨st1, h1, h2, h3⟩ :=
    s2iRun_no_end rt rest { st with tag := some (pyDrop sym 9), tagSymbols := [] } hrest
  have hrun : s2iRun rt (initDecState name) (pre ++ sym :: rest) = Except.ok st1 := by
    rw [s2iRun_append rt pre (sym :: rest), hpre]
    show s2iRun rt st (sym :: rest) = _
    rw [s2iRun_cons, s2iStep_begin rt st hne hb]
    exact h1
  refine ⟨s2iFinalize st1, ?_, ?_, ?_, rfl⟩
  · unfold symbols2intent s2iFrom
    rw [hrun]
  · exact h2
  · exact h3

/-- Witness for C9: an unclosed tag around the literals "x", "y"
decodes normally with no entities and all tokens kept. -/
theorem unclosed_tag_decodes_witness :
    ∃ i, symbols2intent (["hello"] ++ "__begin__a" :: ["x", "y"]) none true =
        Except.ok i ∧
      i.entities = ([] : List Entity) ∧
      i.tokens = ["hello"] ++ (["x", "y"].filter isLiteralSym) ∧
      i.text = String.intercalate " " i.tokens :=
  unclosed_tag_decodes true none ["hello"] ["x", "y"]
    { tag := none, tagSymbols := [], outSymbols := ["hello"],
      intentName := none, entities := [] }
    "__begin__a" rfl (by decide) (by decide) (by decide)

/-- Counterexample for C9 as stated: the sequence opens tag "a" and
never closes it (the only end marker names "b"), yet symbols2intent
raises instead of returning normally. -/
theorem unclosed_tag_error :
    pyStartsWith "__begin__a" "__begin__" = true ∧
    pyDrop "__end__b" 7 ≠ pyDrop "__begin__a" 9 ∧
    (∃ e, symbols2intent ["__begin__a", "__end__b"] none true = Except.error e) :=
  ⟨by decide, by decide, ⟨"Mismatched tags", by decide⟩⟩

/-- Claim C4 (amended): decoding the same symbol sequence with the
replacement policy enabled and disabled yields entity lists of equal
length in which, position by position, the entity name of the enabled
run is the part of the entity name of the disabled run (the full tag name)
before the first colon; entries without a colon coincide entirely.
Text, tokens and the intent field do not depend on the flag. -/
theorem entity_name_policy (symbols : List String) (name : Option String)
    (i1 i2 : Intent)
    (h1 : symbols2intent symbols name true = Except.ok i1)
    (h2 : symbols2intent symbols name false = Except.ok i2) :
    List.Forall₂ entityRel i1.entities i2.entities ∧
    i1.text = i2.text ∧ i1.tokens = i2.tokens ∧ i1.intent = i2.intent := by
  obtain ⟨st1, hr1, rfl⟩ := s2i_ok_structure h1
  obtain ⟨st2, hr2, rfl⟩ := s2i_ok_structure h2
  obtain ⟨r2, hrun, a1, a2, a3, a4, a5⟩ :=
    s2iRun_replace_sim symbols (initDecState name) (initDecState name) st1
      rfl rfl rfl rfl List.Forall₂.nil hr1
  have hr2eq : r2 = st2 := Except.ok.inj (hrun.symm.trans hr2)
  subst hr2eq
  refine ⟨a5, ?_, ?_, ?_⟩
  · simp only [s2iFinalize]
    rw [a3]
  · simp only [s2iFinalize]
    rw [a3]
  · simp only [s2iFinalize]
    rw [a3, a4]

/-- Witness for C4: the colon-carrying tag decoded in both modes. -/
theorem entity_name_policy_witness :
    List.Forall₂ entityRel iCityRepl.entities iCityFull.entities ∧
    iCityRepl.text = iCityFull.text ∧ iCityRepl.tokens = iCityFull.tokens ∧
    iCityRepl.intent = iCityFull.intent :=
  entity_name_policy ["__begin__city:boston", "x", "__end__city:boston"] none
    iCityRepl iCityFull rfl rfl

/-- Counterexample for C4 as stated: with the replacement policy
disabled, the emitted entity name is the full tag name "city:boston",
not the part before the colon. -/
theorem entity_name_keeps_colon_when_disabled :
    symbols2intent ["__begin__city:boston", "x", "__end__city:boston"] none false =
      Except.ok iCityFull ∧
    iCityFull.entities = [{ entity := "city:boston", value := "x" }] ∧
    pyTakeWhile "city:boston" (fun c => c ≠ ':') = "city" ∧
    ("city:boston" : String) ≠ "city" :=
  ⟨rfl, rfl, by decide, by decide⟩

/-- Claim C6 (amended): when every output symbol on a path is either
one of the three reserved markers or a plain literal (no leading
double underscore, not the literal eps string), the space join of the
literal-mode enumeration equals the text field decoded from the
full-mode enumeration; symbols starting with two underscores that are
none of the three markers break the equality. -/
theorem literal_mode_matches_text (A : FST) (p : List Arc) (name : Option String)
    (rt : Bool) (alls lits : List String) (i : Intent)
    (hall : pathToSentence A false 0 p = Except.ok alls)
    (hlit : pathToSentence A true 0 p = Except.ok lits)
    (hclass : ∀ s ∈ alls, markerOrPlain s)
    (hdec : symbols2intent alls name rt = Except.ok i) :
    i.text = String.intercalate " " lits := by
  have h1 := pathToSentence_literal A 0 p alls hall
  have hlits : lits = alls.filter (fun s => !pyStartsWith s "__") :=
    Except.ok.inj (hlit.symm.trans h1)
  obtain ⟨st, hr, rfl⟩ := s2i_ok_structure hdec
  have hout := s2iRun_out_filter rt alls (initDecState name) st hclass hr
  show String.intercalate " " st.outSymbols = _
  rw [hout, hlits]
  rfl

/-- Witness for C6: the single-literal path of fstOK. -/
theorem literal_mode_matches_text_witness :
    iA.text = String.intercalate " " ["a"] :=
  literal_mode_matches_text fstOK [Arc.mk 1 1 1] none true ["a"] ["a"] iA
    (by decide) (by decide) (by decide) rfl

/-- Counterexample for C6 as stated: the output symbol "__x" is
skipped by the literal-mode enumeration as a marker but decoded as a
visible token by symbols2intent, so the two texts differ. -/
theorem literal_mode_text_mismatch :
    pathToSentence fstC6 false 0 [Arc.mk 1 1 1] = Except.ok ["__x"] ∧
    pathToSentence fstC6 true 0 [Arc.mk 1 1 1] = Except.ok [] ∧
    (∃ i, symbols2intent ["__x"] none true = Except.ok i ∧ i.text = "__x") ∧
    String.intercalate " " ([] : List String) ≠ "__x" :=
  ⟨by decide, by decide, ⟨_, rfl, rfl⟩, by decide⟩

/-- Claim C1 (amended): no failure ever escapes fstaccept; a failure
while composing or enumerating yields the empty list, but a failure
while decoding the k-th enumerated path yields exactly the already
scaled records of the paths before it — a possibly non-empty list,
empty only when the first path already fails. -/
theorem fstaccept_failure_isolation (applyFst : List String → Except String FST)
    (fuel : Nat) (sentence : String) (name : Option String) (rt : Bool) :
    ((∃ e, applyFst (pyTokenize sentence) = Except.error e) →
      fstaccept applyFst fuel sentence name rt = []) ∧
    (∀ A, applyFst (pyTokenize sentence) = Except.ok A →
      (∃ e, fstprintall fuel A false = Except.error e) →
      fstaccept applyFst fuel sentence name rt = []) ∧
    (∀ A outs front x back, applyFst (pyTokenize sentence) = Except.ok A →
      fstprintall fuel A false = Except.ok outs →
      outs = front ++ x :: back →
      (∀ y ∈ front, ∃ i, symbols2intent y name rt = Except.ok i) →
      (∃ e, symbols2intent x name rt = Except.error e) →
      fstaccept applyFst fuel sentence name rt =
        front.filterMap
          (fun y => (symbols2intent y name rt).toOption.map
            (scaleIntent outs.length))) := by
  refine ⟨?_, ?_, ?_⟩
  · rintro ⟨e, he⟩
    simp [fstaccept, he]
  · rintro A hA ⟨e, he⟩
    simp [fstaccept, hA, he]
  · intro A outs front x back hA houts heq hfront hx
    rw [fstaccept_eq_decodeLoop hA houts, heq]
    exact decodeLoop_stops (front ++ x :: back).length name rt front x back hfront hx

/-- Witness for C1: the two-path automaton fstC1 whose second path
fails to decode; fstaccept returns the scaled record of the first
path. -/
theorem fstaccept_failure_isolation_witness :
    fstaccept (fun _ => Except.ok fstC1) 10 "hello" none true =
      [["hello"]].filterMap
        (fun y => (symbols2intent y none true).toOption.map
          (scaleIntent ([["hello"], ["__end__x"]] : List (List String)).length)) :=
  (fstaccept_failure_isolation (fun _ => Except.ok fstC1) 10 "hello" none true).2.2
    fstC1 [["hello"], ["__end__x"]] [["hello"]] ["__end__x"] [] rfl (by decide) rfl
    (by intro y hy; rw [List.mem_singleton] at hy; subst hy; exact ⟨iHello, rfl⟩)
    ⟨"Mismatched tags", by decide⟩

/-- Counterexample for C1 as stated: a decode failure occurs for the
second enumerated path of fstC1, yet fstaccept returns a non-empty
list (the record of the first path), not the empty list the claim
demands. -/
theorem fstaccept_nonempty_after_failure :
    (∃ e, symbols2intent ["__end__x"] none true = Except.error e) ∧
    fstprintall 10 fstC1 false = Except.ok [["hello"], ["__end__x"]] ∧
    fstaccept (fun _ => Except.ok fstC1) 10 "hello" none true ≠ [] := by
  refine ⟨⟨"Mismatched tags", by decide⟩, by decide, ?_⟩
  rw [@fstaccept_eq_decodeLoop (fun _ => Except.ok fstC1) 10 "hello" none true fstC1
    [["hello"], ["__end__x"]] rfl (by decide)]
  have h1 : symbols2intent ["hello"] none true = Except.ok iHello := rfl
  simp only [decodeLoop, h1]
  exact List.cons_ne_nil _ _

/-- Claim C3 (amended): when every enumerated path decodes without
error, the confidences returned by fstaccept sum to the number of
paths with non-empty decoded output divided by the total number of
paths; the sum is 1 exactly when all paths decode non-empty (and at
least one path exists) and 0 when none does — not 1 as soon as one
path decodes non-empty. -/
theorem fstaccept_confidence_sum (applyFst : List String → Except String FST)
    (fuel : Nat) (sentence : String) (name : Option String) (rt : Bool)
    (A : FST) (outs : List (List String))
    (hA : applyFst (pyTokenize sentence) = Except.ok A)
    (houts : fstprintall fuel A false = Except.ok outs)
    (hok : ∀ x ∈ outs, ∃ i, symbols2intent x name rt = Except.ok i) :
    sumConf (fstaccept applyFst fuel sentence name rt) =
      (outs.countP (decodesNonempty name rt) : ℚ) / (outs.length : ℚ) ∧
    ((∀ x ∈ outs, decodesNonempty name rt x = true) → outs ≠ [] →
      sumConf (fstaccept applyFst fuel sentence name rt) = 1) ∧
    ((∀ x ∈ outs, decodesNonempty name rt x = false) →
      sumConf (fstaccept applyFst fuel sentence name rt) = 0) := by
  have hmain : sumConf (fstaccept applyFst fuel sentence name rt) =
      (outs.countP (decodesNonempty name rt) : ℚ) / (outs.length : ℚ) := by
    rw [fstaccept_eq_decodeLoop hA houts]
    exact decodeLoop_sum name rt outs.length outs hok
  refine ⟨hmain, ?_, ?_⟩
  · intro hallne hne
    rw [hmain, List.countP_eq_length.mpr hallne]
    have h0 : outs.length ≠ 0 := fun h => hne (List.length_eq_zero.mp h)
    exact div_self (Nat.cast_ne_zero.mpr h0)
  · intro hallzero
    have hz : outs.countP (decodesNonempty name rt) = 0 :=
      List.countP_eq_zero.mpr fun a ha => by rw [hallzero a ha]; simp
    rw [hmain, hz]
    simp

/-- Witness for C3: fstOK, whose two paths both decode with non-empty
tokens. -/
theorem fstaccept_confidence_sum_witness :
    sumConf (fstaccept (fun _ => Except.ok fstOK) 10 "x" none true) =
      (([["a"], ["b"]].countP (decodesNonempty none true) : ℚ)) /
        (([["a"], ["b"]] : List (List String)).length : ℚ) ∧
    ((∀ x ∈ ([["a"], ["b"]] : List (List String)),
        decodesNonempty none true x = true) →
      ([["a"], ["b"]] : List (List String)) ≠ [] →
      sumConf (fstaccept (fun _ => Except.ok fstOK) 10 "x" none true) = 1) ∧
    ((∀ x ∈ ([["a"], ["b"]] : List (List String)),
        decodesNonempty none true x = false) →
      sumConf (fstaccept (fun _ => Except.ok fstOK) 10 "x" none true) = 0) :=
  fstaccept_confidence_sum (fun _ => Except.ok fstOK) 10 "x" none true fstOK
    [["a"], ["b"]] rfl (by decide)
    (by intro x hx; fin_cases hx <;> exact ⟨_, rfl⟩)

/-- Counterexample for C3 as stated: in fstC3 one path decodes with
non-empty output and one with empty output; the claim then demands a
confidence sum of 1, but the sum is 1/2. -/
theorem fstaccept_confidence_sum_half :
    fstprintall 10 fstC3 false = Except.ok [["hello"], ["__label__x"]] ∧
    decodesNonempty none true ["hello"] = true ∧
    decodesNonempty none true ["__label__x"] = false ∧
    sumConf (fstaccept (fun _ => Except.ok fstC3) 10 "x" none true) = 1 / 2 ∧
    (1 : ℚ) / 2 ≠ 1 ∧ (1 : ℚ) / 2 ≠ 0 := by
  refine ⟨by decide, by decide, by decide, ?_, by norm_num, by norm_num⟩
  rw [@fstaccept_eq_decodeLoop (fun _ => Except.ok fstC3) 10 "x" none true fstC3
    [["hello"], ["__label__x"]] rfl (by decide)]
  have h1 : symbols2intent ["hello"] none true = Except.ok iHello := rfl
  have h2 : symbols2intent ["__label__x"] none true = Except.ok iLabelOnly := rfl
  simp only [decodeLoop, h1, h2, sumConf, List.map_cons, List.map_nil, List.sum_cons,
    List.sum_nil, scaleIntent, iHello, iLabelOnly]
  norm_num

/-- Claim C7 (confirmed): a record returned by fstaccept has
confidence 0 exactly when its token list is empty; with non-empty
tokens the confidence is exactly 1 divided by the number of
enumerated paths, a strictly positive value. -/
theorem confidence_zero_iff_no_tokens (applyFst : List String → Except String FST)
    (fuel : Nat) (sentence : String) (name : Option String) (rt : Bool)
    (A : FST) (outs : List (List String)) (r : Intent)
    (hA : applyFst (pyTokenize sentence) = Except.ok A)
    (houts : fstprintall fuel A false = Except.ok outs)
    (hr : r ∈ fstaccept applyFst fuel sentence name rt) :
    (r.intent.confidence = 0 ↔ r.tokens = []) ∧
    (r.tokens ≠ [] →
      r.intent.confidence = 1 / (outs.length : ℚ) ∧ 0 < r.intent.confidence) := by
  rw [fstaccept_eq_decodeLoop hA houts] at hr
  obtain ⟨x, i, hx, hix, rfl⟩ := decodeLoop_mem hr
  have hne : outs ≠ [] := by
    rintro rfl
    exact absurd hx (List.not_mem_nil x)
  have hn0 : (0 : ℚ) < (outs.length : ℚ) := by
    exact_mod_cast List.length_pos.mpr hne
  have hconf := s2i_conf hix
  have htok : (scaleIntent outs.length i).tokens = i.tokens := rfl
  have hc : (scaleIntent outs.length i).intent.confidence =
      i.intent.confidence / (outs.length : ℚ) := rfl
  cases htoks : i.tokens with
  | nil =>
    have hc0 : i.intent.confidence = 0 := by rw [hconf, htoks]; rfl
    constructor
    · rw [hc, hc0, htok, htoks]
      simp
    · intro hcontra
      rw [htok, htoks] at hcontra
      exact absurd rfl hcontra
  | cons t ts =>
    have hc1 : i.intent.confidence = 1 := by rw [hconf, htoks]; rfl
    have hpos : 0 < (1 : ℚ) / (outs.length : ℚ) := div_pos one_pos hn0
    constructor
    · rw [hc, hc1, htok, htoks]
      constructor
      · intro h0
        exact absurd h0.symm (ne_of_lt hpos)
      · intro hctr
        exact List.noConfusion hctr
    · intro
      rw [hc, hc1]
      exact ⟨rfl, hpos⟩

/-- Witness for C7: the first record of the recognition over fstOK. -/
theorem confidence_zero_iff_no_tokens_witness :
    ((scaleIntent 2 iA).intent.confidence = 0 ↔ (scaleIntent 2 iA).tokens = []) ∧
    ((scaleIntent 2 iA).tokens ≠ [] →
      (scaleIntent 2 iA).intent.confidence =
        1 / (([["a"], ["b"]] : List (List String)).length : ℚ) ∧
      0 < (scaleIntent 2 iA).intent.confidence) :=
  confidence_zero_iff_no_tokens (fun _ => Except.ok fstOK) 10 "x" none true fstOK
    [["a"], ["b"]] (scaleIntent 2 iA) rfl (by decide)
    (by
      rw [@fstaccept_eq_decodeLoop (fun _ => Except.ok fstOK) 10 "x" none true fstOK
        [["a"], ["b"]] rfl (by decide)]
      have h1 : symbols2intent ["a"] none true = Except.ok iA := rfl
      simp only [decodeLoop, h1]
      exact List.mem_cons_self _ _)
